import Mathlib

/-!
Shallow embedding of `src/dataflow_preprocess.py`.

The file models the three stages of the `_Shuffle` beam transform
(`PairWithRandom`, `GroupByRandom`, `DropRandom`), the `preprocess`
pipeline-construction function, and the `parse_arguments` command-line
parser, and proves the claimed properties about them.

Records are opaque values of an arbitrary type `R`.  The values produced by
`random.random()` are modelled by an arbitrary linearly ordered type `K`; a
run of the transform is parameterised by the sequence `ks : List K` of key
values that the successive calls to `random.random()` return, so that the
nondeterminism of the random source becomes an explicit input.
-/

namespace DataflowPreprocess

variable {K R : Type} [LinearOrder K]

/-- Stage `PairWithRandom` of `_Shuffle`, from
`beam.Map(lambda x: (random.random(), x))`: the i-th record is paired with
the i-th value drawn from the random source. -/
def pairWithRandom (ks : List K) (xs : List R) : List (K × R) := ks.zip xs

/-- Stage `GroupByRandom` of `_Shuffle`, from `beam.GroupByKey()`: records
are grouped by their key, each group holding its records in input order.
The execution engine leaves the emission order of the groups unspecified;
it is modelled deterministically here as ascending key order, the
determinisation under which the documented example output is produced. -/
def groupByKey (ps : List (K × R)) : List (K × List R) :=
  (List.insertionSort (· ≤ ·) (ps.map Prod.fst).dedup).map
    (fun k => (k, (ps.filter (fun p => decide (p.1 = k))).map Prod.snd))

/-- Stage `DropRandom` of `_Shuffle`, from
`beam.FlatMap(lambda (k, vs): vs)`: the key of each group is discarded and
the groups are concatenated. -/
def dropRandom (gs : List (K × List R)) : List R := (gs.map Prod.snd).flatten

/-- The `_Shuffle` ptransform of `dataflow_preprocess.py`: pair every record
with a random key, group by the key, drop the key. -/
def _Shuffle (ks : List K) (xs : List R) : List R :=
  dropRandom (groupByKey (pairWithRandom ks xs))

/-- Comparison of keyed records by their random key alone. -/
def keyle : K × R → K × R → Prop := fun a b => a.1 ≤ b.1

instance : DecidableRel (@keyle K R _) := fun a b =>
  inferInstanceAs (Decidable (a.1 ≤ b.1))

instance : IsTotal (K × R) keyle := ⟨fun a b => le_total a.1 b.1⟩

instance : IsTrans (K × R) keyle := ⟨fun _ _ _ h h' => le_trans h h'⟩

instance : IsRefl (K × R) keyle := ⟨fun _ => le_refl _⟩

/-- Modelled from the spec: the single-process reduction of the shuffle
operator — attach a random key to each record, sort by that key, strip the
key, return the records. -/
def shuffleSingleProcess (ks : List K) (xs : List R) : List R :=
  (List.insertionSort keyle (ks.zip xs)).map Prod.snd

/-- Filtering for a key `k'` distinct from `k` commutes with first removing
the records keyed by `k`. -/
theorem filter_key_of_filter_ne (ps : List (K × R)) {k k' : K} (hkk : k' ≠ k) :
    (ps.filter (fun p => decide (¬ p.1 = k))).filter (fun p => decide (p.1 = k')) =
      ps.filter (fun p => decide (p.1 = k')) := by
  rw [List.filter_filter]
  refine List.filter_congr (fun p _ => ?_)
  by_cases h : p.1 = k'
  · simp [h, hkk]
  · simp [h]

/-- Inserting a record whose key is below the whole list puts it in front. -/
theorem orderedInsert_eq_cons (x : K × R) (l : List (K × R))
    (h : ∀ y ∈ l, keyle x y) : List.orderedInsert keyle x l = x :: l := by
  cases l with
  | nil => rfl
  | cons y l => exact List.orderedInsert_of_le _ _ (h y (.head _))

/-- Inserting a record whose key is above a whole prefix skips that prefix. -/
theorem orderedInsert_append_of_not (x : K × R) (f s : List (K × R))
    (hf : ∀ y ∈ f, ¬ keyle x y) :
    List.orderedInsert keyle x (f ++ s) = f ++ List.orderedInsert keyle x s := by
  induction f with
  | nil => rfl
  | cons y f ih =>
    rw [List.cons_append, List.orderedInsert, if_neg (hf y (.head _)),
      ih (fun z hz => hf z (.tail _ hz)), List.cons_append]

/-- Sorting by key splits off the records carrying the minimal key `k`, in
input order, followed by the sorted remainder. -/
theorem insertionSort_eq_filter_key_append (k : K) (ps : List (K × R))
    (hmin : ∀ p ∈ ps, k ≤ p.1) :
    List.insertionSort keyle ps =
      ps.filter (fun p => decide (p.1 = k)) ++
        List.insertionSort keyle (ps.filter (fun p => decide (¬ p.1 = k))) := by
  induction ps with
  | nil => rfl
  | cons p ps ih =>
    have hmin' : ∀ q ∈ ps, k ≤ q.1 := fun q hq => hmin q (.tail _ hq)
    by_cases hp : p.1 = k
    · have hd1 : (decide (p.1 = k)) = true := by simp [hp]
      have hd2 : (decide (¬ p.1 = k)) = false := by simp [hp]
      have hall : ∀ y ∈ (ps.filter (fun q => decide (q.1 = k))) ++
          List.insertionSort keyle (ps.filter (fun q => decide (¬ q.1 = k))), keyle p y := by
        intro y hy
        rcases List.mem_append.1 hy with hyf | hys
        · have hy1 : y.1 = k := by simpa using (List.mem_filter.1 hyf).2
          show p.1 ≤ y.1
          rw [hp, hy1]
        · have hy' : y ∈ ps.filter (fun q => decide (¬ q.1 = k)) :=
            (List.mem_insertionSort keyle).1 hys
          show p.1 ≤ y.1
          rw [hp]
          exact hmin' y (List.mem_filter.1 hy').1
      simp only [List.insertionSort, List.filter_cons, hd1, hd2, if_true, if_false,
        Bool.false_eq_true, List.cons_append]
      rw [ih hmin', orderedInsert_eq_cons _ _ hall]
    · have hlt : k < p.1 := lt_of_le_of_ne (hmin p (.head _)) (fun h => hp h.symm)
      have hd1 : (decide (p.1 = k)) = false := by simp [hp]
      have hd2 : (decide (¬ p.1 = k)) = true := by simp [hp]
      have hnotf : ∀ y ∈ ps.filter (fun q => decide (q.1 = k)), ¬ keyle p y := by
        intro y hyf
        have hy1 : y.1 = k := by simpa using (List.mem_filter.1 hyf).2
        show ¬ p.1 ≤ y.1
        rw [hy1]
        exact not_le.2 hlt
      simp only [List.insertionSort, List.filter_cons, hd1, hd2, if_true, if_false,
        Bool.false_eq_true]
      rw [ih hmin', orderedInsert_append_of_not _ _ _ hnotf]

/-- Concatenating, in ascending key order, the per-key fibres of a keyed
record list is exactly the stable sort of that list by key. -/
theorem flatten_filter_eq_insertionSort (L : List K) :
    ∀ ps : List (K × R), L.Nodup → L.Sorted (· ≤ ·) → (∀ p ∈ ps, p.1 ∈ L) →
      (L.map (fun k => ps.filter (fun p => decide (p.1 = k)))).flatten
        = List.insertionSort keyle ps := by
  induction L with
  | nil =>
    intro ps _ _ hmem
    cases ps with
    | nil => rfl
    | cons p ps => exact absurd (hmem p (.head _)) (List.not_mem_nil _)
  | cons k L ih =>
    intro ps hnd hsort hmem
    have hkL : k ∉ L := (List.nodup_cons.1 hnd).1
    have hkle : ∀ b ∈ L, k ≤ b := (List.sorted_cons.1 hsort).1
    have hL : L.map (fun k' => ps.filter (fun p => decide (p.1 = k'))) =
        L.map (fun k' => (ps.filter (fun p => decide (¬ p.1 = k))).filter
          (fun p => decide (p.1 = k'))) :=
      List.map_congr_left (fun k' hk' =>
        (filter_key_of_filter_ne ps (fun h : k' = k => hkL (h ▸ hk'))).symm)
    have hmem' : ∀ p ∈ ps.filter (fun p => decide (¬ p.1 = k)), p.1 ∈ L := by
      intro p hp
      have h1 := List.mem_filter.1 hp
      have h2 : ¬ p.1 = k := by simpa using h1.2
      rcases List.mem_cons.1 (hmem p h1.1) with h | h
      · exact absurd h h2
      · exact h
    have hmin : ∀ p ∈ ps, k ≤ p.1 := by
      intro p hp
      rcases List.mem_cons.1 (hmem p hp) with h | h
      · exact le_of_eq h.symm
      · exact hkle _ h
    rw [List.map_cons, List.flatten_cons, hL,
      ih _ (List.nodup_cons.1 hnd).2 (List.sorted_cons.1 hsort).2 hmem',
      ← insertionSort_eq_filter_key_append k ps hmin]

/-- Flattening after mapping a function over each block is mapping it over
the flattened list. -/
theorem flatten_map_comp {A B C : Type} (g : A → List B) (f : B → C) (L : List A) :
    (L.map (fun a => (g a).map f)).flatten = ((L.map g).flatten).map f := by
  induction L with
  | nil => rfl
  | cons a L ih => simp [ih]

/-- The grouped pipeline, once keys are dropped, produces exactly the
projection of the stable sort of the keyed records. -/
theorem dropRandom_groupByKey (ps : List (K × R)) :
    dropRandom (groupByKey ps) = (List.insertionSort keyle ps).map Prod.snd := by
  have hnd : (List.insertionSort (· ≤ ·) (ps.map Prod.fst).dedup).Nodup :=
    (List.perm_insertionSort _ _).nodup_iff.2 (List.nodup_dedup _)
  have hsort : (List.insertionSort (· ≤ ·) (ps.map Prod.fst).dedup).Sorted (· ≤ ·) :=
    List.sorted_insertionSort _ _
  have hmem : ∀ p ∈ ps, p.1 ∈ List.insertionSort (· ≤ ·) (ps.map Prod.fst).dedup :=
    fun p hp => (List.mem_insertionSort _).2 (List.mem_dedup.2 (List.mem_map_of_mem _ hp))
  unfold dropRandom groupByKey
  rw [List.map_map]
  have hcomp : (Prod.snd ∘ fun k => (k, (ps.filter (fun p => decide (p.1 = k))).map Prod.snd)) =
      fun k => (ps.filter (fun p => decide (p.1 = k))).map Prod.snd := rfl
  rw [hcomp, flatten_map_comp, flatten_filter_eq_insertionSort _ ps hnd hsort hmem]

/-- Records in the `k` fibre of a keyed list all carry key `k`, so tagging
the fibre's values with `k` reconstructs the fibre. -/
theorem filter_key_reconstruct (ps : List (K × R)) (k : K) :
    ((ps.filter (fun p => decide (p.1 = k))).map Prod.snd).map (fun r => (k, r)) =
      ps.filter (fun p => decide (p.1 = k)) := by
  induction ps with
  | nil => rfl
  | cons p ps ih =>
    by_cases h : p.1 = k
    · rw [List.filter_cons_of_pos (by simp [h]), List.map_cons, List.map_cons, ih]
      congr 1
      rw [← h]
    · rw [List.filter_cons_of_neg (by simp [h]), ih]

/-- Keyed view of the grouped output: each group's records tagged with the
group's key, in emission order. -/
def outputPairs (gs : List (K × List R)) : List (K × R) :=
  (gs.map (fun g => g.2.map (fun r => (g.1, r)))).flatten

/-- The keyed view of the grouped pipeline output is the stable sort of the
keyed records by key. -/
theorem outputPairs_groupByKey (ps : List (K × R)) :
    outputPairs (groupByKey ps) = List.insertionSort keyle ps := by
  have hnd : (List.insertionSort (· ≤ ·) (ps.map Prod.fst).dedup).Nodup :=
    (List.perm_insertionSort _ _).nodup_iff.2 (List.nodup_dedup _)
  have hsort : (List.insertionSort (· ≤ ·) (ps.map Prod.fst).dedup).Sorted (· ≤ ·) :=
    List.sorted_insertionSort _ _
  have hmem : ∀ p ∈ ps, p.1 ∈ List.insertionSort (· ≤ ·) (ps.map Prod.fst).dedup :=
    fun p hp => (List.mem_insertionSort _).2 (List.mem_dedup.2 (List.mem_map_of_mem _ hp))
  unfold outputPairs groupByKey
  rw [List.map_map]
  have hcomp : ((fun g : K × List R => g.2.map (fun r => (g.1, r))) ∘
      fun k => (k, (ps.filter (fun p => decide (p.1 = k))).map Prod.snd)) =
      fun k => ps.filter (fun p => decide (p.1 = k)) := by
    funext k
    exact filter_key_reconstruct ps k
  rw [hcomp, flatten_filter_eq_insertionSort _ ps hnd hsort hmem]

/-- Dropping the key tags of the keyed view gives the plain output. -/
theorem outputPairs_map_snd (gs : List (K × List R)) :
    (outputPairs gs).map Prod.snd = dropRandom gs := by
  unfold outputPairs dropRandom
  induction gs with
  | nil => rfl
  | cons g gs ih => simp_all [List.map_map, Function.comp]

/-- The key of each output record, in output order. -/
def outputKeys (ks : List K) (xs : List R) : List K :=
  (outputPairs (groupByKey (pairWithRandom ks xs))).map Prod.fst

/-- The key sequence along the shuffle output is ascending. -/
theorem outputKeys_sorted (ks : List K) (xs : List R) :
    (outputKeys ks xs).Sorted (· ≤ ·) := by
  unfold outputKeys
  rw [outputPairs_groupByKey]
  have h := List.sorted_insertionSort keyle (pairWithRandom ks xs)
  exact List.pairwise_map.2 h

/-- Core permutation fact: when every record is paired with a key, the
shuffle output is a permutation of the input record list. -/
theorem _Shuffle_perm (ks : List K) (xs : List R) (h : ks.length = xs.length) :
    (_Shuffle ks xs).Perm xs := by
  unfold _Shuffle pairWithRandom
  rw [dropRandom_groupByKey]
  have h1 : ((List.insertionSort keyle (ks.zip xs)).map Prod.snd).Perm
      ((ks.zip xs).map Prod.snd) :=
    (List.perm_insertionSort keyle (ks.zip xs)).map Prod.snd
  rwa [List.map_snd_zip ks xs (le_of_eq h.symm)] at h1

/-- Error-aware run of the `DropRandom` stage: the only conceivable local
failure point of `_Shuffle` is the tuple destructuring `lambda (k, vs)`,
matched here explicitly; a failure of an inner stage would be surfaced
unchanged. -/
def dropRandomE (gs : List (K × List R)) : Except String (List R) :=
  match gs with
  | [] => .ok []
  | (_, vs) :: rest =>
    match dropRandomE rest with
    | .ok tail => .ok (vs ++ tail)
    | .error e => .error e

/-- Error-aware run of the whole `_Shuffle` transform. -/
def _ShuffleE (ks : List K) (xs : List R) : Except String (List R) :=
  dropRandomE (groupByKey (pairWithRandom ks xs))

/-- The error-aware `DropRandom` never fails and computes `dropRandom`. -/
theorem dropRandomE_ok (gs : List (K × List R)) :
    dropRandomE gs = Except.ok (dropRandom gs) := by
  induction gs with
  | nil => rfl
  | cons g gs ih =>
    obtain ⟨k, vs⟩ := g
    simp [dropRandomE, dropRandom, ih]

/-- C1: for every finite input collection paired with one random key per
record, the shuffle output is a permutation of the input — the same multiset
of records with the same count, nothing duplicated, dropped, or mutated, and
the output holds bare records, not (key, record) pairs. -/
theorem shuffle_preserves_multiset (ks : List K) (xs : List R)
    (h : ks.length = xs.length) :
    (_Shuffle ks xs).Perm xs ∧ (_Shuffle ks xs).length = xs.length :=
  ⟨_Shuffle_perm ks xs h, (_Shuffle_perm ks xs h).length_eq⟩

/-- Witness for C1 at a concrete input. -/
theorem shuffle_preserves_multiset_witness :
    (_Shuffle ([3, 1, 2] : List ℕ) ["a", "b", "c"]).Perm ["a", "b", "c"] ∧
      (_Shuffle ([3, 1, 2] : List ℕ) ["a", "b", "c"]).length =
        (["a", "b", "c"] : List String).length :=
  shuffle_preserves_multiset [3, 1, 2] ["a", "b", "c"] (by decide)

/-- C2: the pipeline form of the shuffle (pair with key, group by key, drop
key) and the single-process form (attach key, sort by key, strip key)
produce the same output sequence for every record list and key sequence. -/
theorem shuffle_pipeline_eq_singleProcess (ks : List K) (xs : List R) :
    _Shuffle ks xs = shuffleSingleProcess ks xs := by
  unfold _Shuffle pairWithRandom shuffleSingleProcess
  rw [dropRandom_groupByKey]

/-- C3: input `["a", "b", "c"]` with key sequence `[0.7, 0.1, 0.4]` yields
the output ordered by ascending key, `["b", "c", "a"]`. -/
theorem shuffle_example_abc :
    _Shuffle [(0.7 : ℚ), 0.1, 0.4] ["a", "b", "c"] = ["b", "c", "a"] := by
  norm_num [_Shuffle, pairWithRandom, groupByKey, dropRandom, List.dedup, List.pwFilter,
    List.insertionSort, List.orderedInsert, List.filter]

/-- C4: the empty input collection yields the empty output. -/
theorem shuffle_empty (ks : List K) : _Shuffle ks ([] : List R) = [] := by
  simp [_Shuffle, pairWithRandom, groupByKey, dropRandom]

/-- C5: a single-record input is returned unchanged. -/
theorem shuffle_singleton (k : K) (x : R) : _Shuffle [k] [x] = [x] := by
  simp [_Shuffle, pairWithRandom, groupByKey, dropRandom]

/-- C6: byte-identical duplicate records are independent entities — every
duplicate appears in the output with the multiplicity it has in the input,
and the pairing stage assigns a key to each copy separately, keeping all of
them. -/
theorem shuffle_duplicates_retained [DecidableEq R] (ks : List K) (xs : List R)
    (h : ks.length = xs.length) (r : R) :
    (_Shuffle ks xs).count r = xs.count r ∧
      (pairWithRandom ks xs).map Prod.snd = xs :=
  ⟨(_Shuffle_perm ks xs h).count_eq r, List.map_snd_zip ks xs (le_of_eq h.symm)⟩

/-- Witness for C6 at an input with a duplicated record. -/
theorem shuffle_duplicates_retained_witness :
    (_Shuffle ([2, 1] : List ℕ) ["a", "a"]).count "a" = (["a", "a"] : List String).count "a" ∧
      (pairWithRandom ([2, 1] : List ℕ) ["a", "a"]).map Prod.snd = ["a", "a"] :=
  shuffle_duplicates_retained [2, 1] ["a", "a"] (by decide) "a"

/-- C7: the shuffle is total — for every input collection and key sequence
the error-aware run returns a result, never an error, and the error branch
is unreachable: it is the successful run of the pure shuffle. -/
theorem shuffle_total_no_failure (ks : List K) (xs : List R) :
    _ShuffleE ks xs = Except.ok (_Shuffle ks xs) :=
  dropRandomE_ok _

/-- C9: records assigned equal random keys come out contiguously, as one
group: between two output positions holding the same key every intermediate
position holds that key as well, and the keyed view projects to the shuffle
output. -/
theorem shuffle_equal_keys_contiguous (ks : List K) (xs : List R)
    (i j l : Fin (outputKeys ks xs).length) (hij : i ≤ j) (hjl : j ≤ l)
    (h : (outputKeys ks xs).get i = (outputKeys ks xs).get l) :
    (outputKeys ks xs).get j = (outputKeys ks xs).get i ∧
      (outputPairs (groupByKey (pairWithRandom ks xs))).map Prod.snd = _Shuffle ks xs := by
  have hs : (outputKeys ks xs).Sorted (· ≤ ·) := outputKeys_sorted ks xs
  constructor
  · have h1 : (outputKeys ks xs).get i ≤ (outputKeys ks xs).get j := hs.rel_get_of_le hij
    have h2 : (outputKeys ks xs).get j ≤ (outputKeys ks xs).get l := hs.rel_get_of_le hjl
    exact le_antisymm (le_of_le_of_eq h2 h.symm) h1
  · rw [outputPairs_map_snd]
    rfl

/-- Witness for C9 at an input where two records share a key. -/
theorem shuffle_equal_keys_contiguous_witness :
    (outputKeys ([1, 2, 1] : List ℕ) ["a", "b", "c"]).get ⟨1, by decide⟩ =
        (outputKeys ([1, 2, 1] : List ℕ) ["a", "b", "c"]).get ⟨0, by decide⟩ ∧
      (outputPairs (groupByKey (pairWithRandom ([1, 2, 1] : List ℕ) ["a", "b", "c"]))).map
          Prod.snd = _Shuffle [1, 2, 1] ["a", "b", "c"] :=
  shuffle_equal_keys_contiguous [1, 2, 1] ["a", "b", "c"] ⟨0, by decide⟩ ⟨1, by decide⟩
    ⟨1, by decide⟩ (by decide) (by decide) (by decide)

section Preprocess

variable {Row TRow Schema Metadata PrepFn TransformFn : Type}

/-- Model of `os.path.join` on the two-argument calls made by `preprocess`:
an absolute second component replaces the first, otherwise the components
are joined with a single separator. -/
def osPathJoin (a b : String) : String :=
  if b.startsWith "/" then b
  else if a = "" then b
  else if a.endsWith "/" then a ++ b
  else a ++ "/" ++ b

/-- Abstract interface of the external collaborators `preprocess` invokes:
the `outbrain_transform` module, `tensorflow_transform`, the beam IO
sources and `path_constants`.  `Row` is a decoded CSV row, `TRow` a
transformed row; `Schema`, `Metadata`, `PrepFn` and `TransformFn` are
opaque.  Their behaviour is arbitrary: `preprocess` only composes them. -/
structure Externals (Row TRow Schema Metadata PrepFn TransformFn : Type) where
  make_input_schema : Schema
  make_input_schema_infer : Schema
  csv_decode : Schema → String → Row
  csv_decode_infer : Schema → String → Row
  readFromText : String → List String
  dataset_metadata : Schema → Metadata
  make_preprocessing_fn : Unit → PrepFn
  analyzeAndTransformDataset :
    List Row × Metadata → PrepFn → (List TRow × Metadata) × TransformFn
  transformDataset : (List Row × Metadata) × TransformFn → List TRow × Metadata
  example_encode : Metadata → TRow → String
  example_encode_schema : Schema → Row → String
  b64_json : String → String
  RAW_METADATA_DIR : String
  TRANSFORMED_TRAIN_DATA_FILE_PREFIX : String
  TRANSFORMED_EVAL_DATA_FILE_PREFIX : String
  TRANSFORMED_PREDICT_DATA_FILE_PREFIX : String

/-- Everything the constructed pipeline writes: for each sink, its target
path and the written payload. -/
structure PipelineOutputs (Metadata TransformFn : Type) where
  rawMetadataTarget : String × Metadata
  transformFnTarget : String × TransformFn
  trainingWrite : String × List String
  evalWrite : String × List String
  predictTFRecordWrite : Option (String × List String)
  predictTextWrite : Option (String × List String)

/-- Serialized prediction examples of the optional predict branch. -/
def serializedPredictExamples (ext : Externals Row TRow Schema Metadata PrepFn TransformFn)
    (predict_data : String) : List String :=
  (ext.readFromText predict_data).map
    (fun s => ext.example_encode_schema ext.make_input_schema_infer
      (ext.csv_decode_infer ext.make_input_schema_infer s))

/-- The `preprocess` function of `dataflow_preprocess.py`: reads and decodes
the training and evaluation CSVs, writes the raw metadata, analyzes and
transforms the training data with `make_preprocessing_fn()` — invoked, as in
the source, without the frequency threshold — writes the transform function,
transforms the evaluation data, serializes both, shuffles the training
records with `_Shuffle` (the key sequence `ks` standing for the random
source) and records every write target.  `frequency_threshold` is accepted
but never read past this point. -/
def preprocess (ext : Externals Row TRow Schema Metadata PrepFn TransformFn)
    (ks : List K) (training_data eval_data : String) (predict_data : Option String)
    (output_dir : String) (frequency_threshold : Int) :
    PipelineOutputs Metadata TransformFn :=
  let input_schema := ext.make_input_schema
  let train_data := (ext.readFromText training_data).map (ext.csv_decode input_schema)
  let evaluate_data := (ext.readFromText eval_data).map (ext.csv_decode input_schema)
  let input_metadata := ext.dataset_metadata input_schema
  let preprocessing_fn := ext.make_preprocessing_fn ()
  let analyzed := ext.analyzeAndTransformDataset (train_data, input_metadata) preprocessing_fn
  let train_dataset := analyzed.1.1
  let train_metadata := analyzed.1.2
  let transform_fn := analyzed.2
  let evaluated := ext.transformDataset ((evaluate_data, input_metadata), transform_fn)
  { rawMetadataTarget := (osPathJoin output_dir ext.RAW_METADATA_DIR, input_metadata)
    transformFnTarget := (output_dir, transform_fn)
    trainingWrite := (osPathJoin output_dir ext.TRANSFORMED_TRAIN_DATA_FILE_PREFIX,
      _Shuffle ks (train_dataset.map (ext.example_encode train_metadata)))
    evalWrite := (osPathJoin output_dir ext.TRANSFORMED_EVAL_DATA_FILE_PREFIX,
      evaluated.1.map (ext.example_encode evaluated.2))
    predictTFRecordWrite := predict_data.map (fun pd =>
      (osPathJoin output_dir ext.TRANSFORMED_PREDICT_DATA_FILE_PREFIX,
        serializedPredictExamples ext pd))
    predictTextWrite := predict_data.map (fun pd =>
      (osPathJoin output_dir ext.TRANSFORMED_PREDICT_DATA_FILE_PREFIX,
        (serializedPredictExamples ext pd).map ext.b64_json)) }

/-- C8: `preprocess` is independent of its `frequency_threshold` argument —
two calls differing only in that argument construct identical pipelines
with identical outputs, whatever the external collaborators do, because
`make_preprocessing_fn` is invoked without the threshold. -/
theorem preprocess_ignores_frequency_threshold
    (ext : Externals Row TRow Schema Metadata PrepFn TransformFn) (ks : List K)
    (training_data eval_data : String) (predict_data : Option String)
    (output_dir : String) (ft₁ ft₂ : Int) :
    preprocess ext ks training_data eval_data predict_data output_dir ft₁ =
      preprocess ext ks training_data eval_data predict_data output_dir ft₂ := rfl

end Preprocess

section ParseArguments

/-- The argparse namespace produced by `parse_arguments`: one attribute per
`add_argument` call, with its default. -/
structure Args where
  project_id : Option String
  cloud : Bool
  frequency_threshold : Int
  training_data : Option String
  eval_data : Option String
  predict_data : Option String
  output_dir : Option String
deriving DecidableEq

/-- Defaults of the argparse namespace before any token is consumed. -/
def initArgs : Args :=
  { project_id := none, cloud := false, frequency_threshold := 100,
    training_data := none, eval_data := none, predict_data := none, output_dir := none }

/-- State of the argparse token scan: the namespace built so far, the
matched value-taking option string still awaiting its value, the
unrecognized tokens collected by `parse_known_args`, whether a parse error
aborted the scan, whether the auto-added help option exited it, and
whether a bare `--` separator has been seen. -/
structure ParseState where
  args : Args
  pending : Option String
  extras : List String
  error : Bool
  exited : Bool
  afterSep : Bool

/-- Start state of the scan. -/
def initState : ParseState :=
  { args := initArgs, pending := none, extras := [], error := false,
    exited := false, afterSep := false }

/-- Option-like tokens are those starting with a dash and at least one more
character, the shape argparse treats as a candidate flag. -/
def isFlagToken (t : String) : Bool :=
  match t.data with
  | '-' :: _ :: _ => true
  | _ => false

/-- Tokens that look like negative numbers; since no declared option string
looks like one, argparse accepts them as option values. -/
def looksLikeNegNumber (t : String) : Bool :=
  match t.data with
  | '-' :: rest => !rest.isEmpty && rest.all (fun c => c.isDigit)
  | _ => false

/-- Splitting a token at its first `=`, the `--name=value` form. -/
def splitEq : List Char → List Char × Option (List Char)
  | [] => ([], none)
  | '=' :: rest => ([], some rest)
  | c :: rest => ((splitEq rest).1.cons c, (splitEq rest).2)

/-- The flag part of an option token. -/
def flagName (t : String) : String := ⟨(splitEq t.data).1⟩

/-- The inline `=value` part of an option token, when present. -/
def flagValue (t : String) : Option String := ((splitEq t.data).2).map (fun cs => ⟨cs⟩)

/-- Model of Python `int()` on the digit strings relevant here, used for
the `type=int` conversion of `--frequency_threshold`. -/
def digitsToNat : List Char → Nat → Option Nat
  | [], acc => some acc
  | c :: rest, acc =>
      if c.isDigit then digitsToNat rest (acc * 10 + (c.toNat - 48)) else none

/-- Conversion of a decimal string to an integer; `none` models the
`ValueError` of `int()`. -/
def strToInt (s : String) : Option Int :=
  match s.data with
  | [] => none
  | '-' :: rest =>
      if rest.isEmpty then none else (digitsToNat rest 0).map (fun n => -(n : Int))
  | cs => (digitsToNat cs 0).map (fun n => (n : Int))

/-- Tokens starting with a double dash, the shape of a long option. -/
def isLongToken (t : String) : Bool :=
  match t.data with
  | '-' :: '-' :: _ => true
  | _ => false

/-- Character-wise string prefix test. -/
def strIsPrefixOf (a b : String) : Bool := a.data.isPrefixOf b.data

/-- The option strings of the parser: the `-h`/`--help` pair argparse adds
automatically, then one string per `add_argument` call. -/
def optionStrings : List String :=
  ["-h", "--help", "--project_id", "--cloud", "--frequency_threshold",
   "--training_data", "--eval_data", "--predict_data", "--output_dir"]

/-- The option strings a long-flag name selects under argparse matching:
its exact match when it is declared, otherwise every long option string it
abbreviates.  An empty result is an unrecognized flag, two or more results
an ambiguous abbreviation. -/
def matchOptions (n : String) : List String :=
  if n ∈ optionStrings then [n]
  else optionStrings.filter (fun o => isLongToken o && strIsPrefixOf n o)

/-- Storing the value of a known flag into the namespace; the `Bool` is
true when the `type=int` conversion fails. -/
def setArg (a : Args) (name v : String) : Args × Bool :=
  if name = "--project_id" then ({ a with project_id := some v }, false)
  else if name = "--frequency_threshold" then
    match strToInt v with
    | some n => ({ a with frequency_threshold := n }, false)
    | none => (a, true)
  else if name = "--training_data" then ({ a with training_data := some v }, false)
  else if name = "--eval_data" then ({ a with eval_data := some v }, false)
  else if name = "--predict_data" then ({ a with predict_data := some v }, false)
  else if name = "--output_dir" then ({ a with output_dir := some v }, false)
  else (a, false)

/-- One step of the argparse scan on the next token.  After an abort or
the `--` separator nothing is interpreted further.  A pending value option
consumes a non-flag token (or a negative number) as its value.  Otherwise
a long token is resolved by exact or prefix-abbreviation matching: a unique
match acts as the matched option — help exits, `--cloud` stores true with
an inline value rejected, a value option takes its inline value or starts
pending — an ambiguous abbreviation is an error, and no match is an
unrecognized token collected by `parse_known_args`.  A short token is the
help option exactly, an explicit-argument use of it (an error), or
unrecognized.  Non-flag tokens are unrecognized positionals. -/
def step (s : ParseState) (t : String) : ParseState :=
  if s.error || s.exited then s
  else if s.afterSep then { s with extras := s.extras ++ [t] }
  else
    match s.pending with
    | some name =>
        if isFlagToken t && !looksLikeNegNumber t then { s with error := true }
        else
          { s with args := (setArg s.args name t).1, pending := none,
                   error := (setArg s.args name t).2 }
    | none =>
        if t = "--" then { s with afterSep := true, extras := s.extras ++ [t] }
        else if isLongToken t then
          match matchOptions (flagName t) with
          | [o] =>
              if o = "--help" then
                match flagValue t with
                | some _ => { s with error := true }
                | none => { s with exited := true }
              else if o = "--cloud" then
                match flagValue t with
                | some _ => { s with error := true }
                | none => { s with args := { s.args with cloud := true } }
              else
                match flagValue t with
                | some v =>
                    { s with args := (setArg s.args o v).1,
                             error := (setArg s.args o v).2 }
                | none => { s with pending := some o }
          | [] => { s with extras := s.extras ++ [t] }
          | _ => { s with error := true }
        else if isFlagToken t then
          if t = "-h" then { s with exited := true }
          else if strIsPrefixOf "-h" t then { s with error := true }
          else { s with extras := s.extras ++ [t] }
        else { s with extras := s.extras ++ [t] }

/-- End of the scan: an error or a help exit yields no namespace, a
dangling value option is an error, and the `required=True` flags must have
been supplied. -/
def finalize (s : ParseState) : Option Args :=
  if s.error || s.exited then none
  else
    match s.pending with
    | some _ => none
    | none =>
        if s.args.training_data.isSome && s.args.eval_data.isSome
            && s.args.output_dir.isSome
        then some s.args else none

/-- The `parser.parse_known_args(args=argv[1:])` call: scan the tokens,
return the namespace together with the unrecognized tokens. -/
def parse_known_args (tokens : List String) : Option (Args × List String) :=
  (finalize (tokens.foldl step initState)).map (fun a => (a, (tokens.foldl step initState).extras))

/-- Python truthiness of `args.project_id`: `None` and the empty string are
both falsy. -/
def optStrFalsy : Option String → Bool
  | none => true
  | some s => s = ""

/-- The `parse_arguments` function: parse the known arguments of
`argv[1:]`, discard the unrecognized ones, and default the project id from
the gcloud configuration (abstracted as `defaultProject`) when running on
cloud without one. -/
def parse_arguments (defaultProject : String) (argv : List String) : Option Args :=
  match parse_known_args argv.tail with
  | none => none
  | some (a, _) =>
      if a.cloud && optStrFalsy a.project_id
      then some { a with project_id := some defaultProject }
      else some a

/-- Flags the parser does not recognize: flag-like tokens other than the
`--` separator that select no option string — a long token whose name has
no exact or prefix-abbreviation match, or a short token that is no use of
`-h`.  `parse_known_args` collects exactly these (and non-flag tokens) as
unrecognized and ignores them. -/
def UnknownFlag (u : String) : Prop :=
  isFlagToken u = true ∧ u ≠ "--" ∧
    (isLongToken u = true → matchOptions (flagName u) = []) ∧
    (isLongToken u = false → strIsPrefixOf "-h" u = false)

instance (u : String) : Decidable (UnknownFlag u) := by
  unfold UnknownFlag
  infer_instance

/-- An unrecognized flag token is collected into the extras and changes
nothing else. -/
theorem step_unknown (s : ParseState) (u : String) (herr : s.error = false)
    (hex : s.exited = false) (hsep : s.afterSep = false) (hpend : s.pending = none)
    (hu : UnknownFlag u) : step s u = { s with extras := s.extras ++ [u] } := by
  obtain ⟨h1, h2, h3, h4⟩ := hu
  by_cases hl : isLongToken u = true
  · simp [step, herr, hex, hsep, hpend, h2, hl, h3 hl]
  · have hlf : isLongToken u = false := by revert hl; cases isLongToken u <;> simp
    have hs : strIsPrefixOf "-h" u = false := h4 hlf
    have hne : u ≠ "-h" := by
      intro he
      rw [he] at hs
      exact absurd hs (by decide)
    simp [step, herr, hex, hsep, hpend, h1, h2, hlf, hs, hne]

/-- After the `--` separator every further token is collected into the
extras and changes nothing else. -/
theorem step_afterSep (s : ParseState) (u : String) (herr : s.error = false)
    (hex : s.exited = false) (hsep : s.afterSep = true) :
    step s u = { s with extras := s.extras ++ [u] } := by
  simp [step, herr, hex, hsep]

/-- Scanning a run of unrecognized flag tokens from a clean state leaves
everything but the extras untouched. -/
theorem foldl_preserves_clean (us : List String) (hus : ∀ u ∈ us, UnknownFlag u) :
    ∀ s : ParseState, s.error = false → s.exited = false → s.pending = none →
      (us.foldl step s).args = s.args ∧ (us.foldl step s).error = false ∧
        (us.foldl step s).exited = false ∧ (us.foldl step s).pending = none := by
  induction us with
  | nil => exact fun s he hx hp => ⟨rfl, he, hx, hp⟩
  | cons u us ih =>
    intro s he hx hp
    by_cases hsp : s.afterSep = true
    · rw [List.foldl_cons, step_afterSep s u he hx hsp]
      exact ih (fun v hv => hus v (.tail _ hv)) _ he hx hp
    · have hspf : s.afterSep = false := by revert hsp; cases s.afterSep <;> simp
      rw [List.foldl_cons, step_unknown s u he hx hspf hp (hus u (.head _))]
      exact ih (fun v hv => hus v (.tail _ hv)) _ he hx hp

/-- The finalization of the scan depends only on the abort flags, the
pending flag and the namespace, not on the extras. -/
theorem finalize_congr {s s' : ParseState} (he : s'.error = s.error)
    (hx : s'.exited = s.exited) (hp : s'.pending = s.pending)
    (ha : s'.args = s.args) : finalize s' = finalize s := by
  unfold finalize
  rw [he, hx, hp, ha]

/-- A successful finalization means the scan ended cleanly: no error, no
help exit, no dangling value option, and the namespace is the result. -/
theorem finalize_eq_some {s : ParseState} {a : Args} (h : finalize s = some a) :
    s.error = false ∧ s.exited = false ∧ s.pending = none ∧ s.args = a := by
  unfold finalize at h
  split at h
  · exact absurd h (by simp)
  next habort =>
    have he : s.error = false ∧ s.exited = false := by
      revert habort
      cases s.error <;> cases s.exited <;> simp
    split at h
    · exact absurd h (by simp)
    next hp =>
      split at h
      · exact ⟨he.1, he.2, hp, Option.some.inj h⟩
      · exact absurd h (by simp)

/-- C10: `parse_arguments` silently ignores unrecognized flags — appending
arbitrary unknown flags to an argument list that parses successfully (in
particular one supplying the required `--training_data`, `--eval_data` and
`--output_dir`) neither causes an error nor changes any parsed value. -/
theorem parse_arguments_ignores_unknown_flags (defaultProject : String)
    (argv us : List String) (a : Args)
    (h : parse_arguments defaultProject argv = some a)
    (hus : ∀ u ∈ us, UnknownFlag u) :
    parse_arguments defaultProject (argv ++ us) = some a := by
  cases argv with
  | nil =>
    rw [show parse_arguments defaultProject [] = none from rfl] at h
    exact Option.noConfusion h
  | cons a0 rest =>
    unfold parse_arguments at h ⊢
    simp only [List.tail_cons] at h
    rw [List.cons_append, List.tail_cons]
    cases hpk : parse_known_args rest with
    | none => rw [hpk] at h; exact absurd h (by simp)
    | some pr =>
      obtain ⟨a', extras⟩ := pr
      rw [hpk] at h
      have hbase := hpk
      unfold parse_known_args at hbase
      cases hf : finalize (rest.foldl step initState) with
      | none => rw [hf] at hbase; simp at hbase
      | some a'' =>
        rw [hf] at hbase
        simp only [Option.map_some'] at hbase
        have ha'' : a'' = a' := congrArg Prod.fst (Option.some.inj hbase)
        obtain ⟨he, hx, hp, _⟩ := finalize_eq_some hf
        have hfold := foldl_preserves_clean us hus (rest.foldl step initState) he hx hp
        unfold parse_known_args
        rw [List.foldl_append]
        rw [finalize_congr (hfold.2.1.trans he.symm) (hfold.2.2.1.trans hx.symm)
          (hfold.2.2.2.trans hp.symm) hfold.1, hf, Option.map_some', ha'']
        exact h

/-- Witness for C10 at a concrete command line with three unknown flags
appended. -/
theorem parse_arguments_ignores_unknown_flags_witness :
    parse_arguments "proj"
        (["dataflow_preprocess.py", "--training_data", "t.csv", "--eval_data", "e.csv",
          "--output_dir", "out"] ++ ["--bogus", "--other=1", "-x"]) =
      some { project_id := none, cloud := false, frequency_threshold := 100,
             training_data := some "t.csv", eval_data := some "e.csv",
             predict_data := none, output_dir := some "out" } :=
  parse_arguments_ignores_unknown_flags "proj"
    ["dataflow_preprocess.py", "--training_data", "t.csv", "--eval_data", "e.csv",
     "--output_dir", "out"] ["--bogus", "--other=1", "-x"]
    { project_id := none, cloud := false, frequency_threshold := 100,
      training_data := some "t.csv", eval_data := some "e.csv",
      predict_data := none, output_dir := some "out" } (by rfl) (by decide)

/-- Prefix abbreviation is not silently ignored: `--c` selects `--cloud`,
setting it and thereby triggering the default project id; such a token
does not satisfy `UnknownFlag`. -/
theorem parse_abbreviation_selects_cloud :
    parse_arguments "proj"
        ["prog", "--training_data", "t", "--eval_data", "e", "--output_dir", "o", "--c"] =
      some { project_id := some "proj", cloud := true, frequency_threshold := 100,
             training_data := some "t", eval_data := some "e",
             predict_data := none, output_dir := some "o" } ∧
      ¬ UnknownFlag "--c" := by
  exact ⟨by rfl, by decide⟩

/-- A unique abbreviation of a value option assigns that option when given
an inline value, and aborts the parse when its value is missing. -/
theorem parse_abbreviation_value_option :
    parse_arguments "proj"
        ["prog", "--training_data", "t", "--eval_data", "e", "--output_dir", "o",
         "--train=z"] =
      some { project_id := none, cloud := false, frequency_threshold := 100,
             training_data := some "z", eval_data := some "e",
             predict_data := none, output_dir := some "o" } ∧
      parse_arguments "proj"
        ["prog", "--training_data", "t", "--eval_data", "e", "--output_dir", "o",
         "--train"] = none := by
  exact ⟨by rfl, by rfl⟩

/-- An ambiguous abbreviation aborts the parse: `--p` could select either
`--project_id` or `--predict_data`. -/
theorem parse_ambiguous_abbreviation_aborts :
    parse_arguments "proj"
        ["prog", "--training_data", "t", "--eval_data", "e", "--output_dir", "o", "--p"] =
      none := by
  exact of_decide_eq_true rfl

/-- The auto-added help option exits the parse instead of returning a
namespace, both as `-h` and as an abbreviation of `--help`. -/
theorem parse_help_option_aborts :
    parse_arguments "proj"
        ["prog", "--training_data", "t", "--eval_data", "e", "--output_dir", "o", "-h"] =
        none ∧
      parse_arguments "proj"
        ["prog", "--training_data", "t", "--eval_data", "e", "--output_dir", "o", "--he"] =
        none := by
  exact ⟨by rfl, by rfl⟩

end ParseArguments

end DataflowPreprocess
